import Mathlib

/-!
# LapVision — verification of the lap-timing session engine

A shallow embedding of the core of the LapVision repository
(`backend/lap_counter_core.py`, class `LapCounter`, and the search-window
computation of the `/api/search-lap` route in `backend/app.py`), together
with theorems settling the specification's claims about it.

Modelling conventions:
* Python floats (fps, lap times, similarity scores) are modelled as `ℚ`.
* Frame pixel buffers are identified by the true stream position they were
  decoded at (an `ℤ`); the embedding oracle is an abstract function
  `embed : ℤ → ℤ` from frame data to an (abstract) feature-vector id, and
  the dot product is an abstract `dot : ℤ → ℤ → ℚ`.
* The OpenCV `VideoCapture` is modelled as an exactly-seeking stream: it
  holds a decode cursor `pos`; `set(CAP_PROP_POS_FRAMES, p)` sets the
  cursor to `p` and `get` reports it back; `read()` succeeds exactly when
  the cursor lies in `[0, total)` and then yields the frame at the cursor
  and advances it.  The source's fallback paths for inaccurately-seeking
  codecs are embedded as written, even where this stream model makes them
  unreachable.
* Python exceptions are values of `PyExn`; a method that can raise returns
  an `Except PyExn` result *paired with the post-state*, so that partial
  mutation before a raise is representable.
-/

/-- Python `int(q)` on a rational: truncation toward zero. -/
def pyInt (q : ℚ) : ℤ := if 0 ≤ q then ⌊q⌋ else ⌈q⌉

/-- Auxiliary structural recursion for `pyRange`: emits `a, a + s, ...` while
below `b`, with enough fuel to enumerate every element (step `s ≥ 1`). -/
def pyRangeAux (s : ℤ) : ℕ → ℤ → ℤ → List ℤ
  | 0, _, _ => []
  | fuel + 1, a, b => if a < b then a :: pyRangeAux s fuel (a + s) b else []

/-- Python `range(a, b, s)` as a list, for the uses in this code base:
for a positive step it is `a, a + s, a + 2*s, ...` strictly below `b`;
for a negative step (never produced here with a validated `fps > 0`) it is
empty in the sampled direction of this code.  A zero step is rejected by
Python with a `ValueError` before `range` yields anything; callers check
for it separately. -/
def pyRange (a b s : ℤ) : List ℤ :=
  if 0 < s then pyRangeAux s (b - a).toNat a b else []

theorem pyRangeAux_get (s : ℤ) (hs : 0 < s) :
    ∀ (fuel : ℕ) (a b : ℤ) (i : ℕ), i < (pyRangeAux s fuel a b).length →
      (pyRangeAux s fuel a b)[i]? = some (a + s * i)
  | 0, a, b, i => by simp [pyRangeAux]
  | fuel + 1, a, b, i => by
    intro hi
    rw [pyRangeAux] at hi ⊢
    by_cases hab : a < b
    · simp only [if_pos hab] at hi ⊢
      match i with
      | 0 => simp
      | i + 1 =>
        simp only [List.length_cons, Nat.add_lt_add_iff_right] at hi
        have := pyRangeAux_get s hs fuel (a + s) b i hi
        simpa [this] using by ring
    · simp [if_neg hab] at hi

theorem pyRangeAux_mem (s : ℤ) (hs : 0 < s) :
    ∀ (fuel : ℕ) (a b x : ℤ), x ∈ pyRangeAux s fuel a b → a ≤ x ∧ x < b
  | 0, a, b, x => by simp [pyRangeAux]
  | fuel + 1, a, b, x => by
    rw [pyRangeAux]
    by_cases hab : a < b
    · simp only [if_pos hab, List.mem_cons]
      rintro (rfl | hx)
      · exact ⟨le_refl x, hab⟩
      · have := pyRangeAux_mem s hs fuel (a + s) b x hx
        exact ⟨by omega, this.2⟩
    · simp [if_neg hab]

theorem pyRange_get {a b s : ℤ} (hs : 0 < s) {i : ℕ}
    (hi : i < (pyRange a b s).length) :
    (pyRange a b s)[i]? = some (a + s * i) := by
  rw [pyRange, if_pos hs] at hi ⊢
  exact pyRangeAux_get s hs _ a b i hi

theorem pyRange_mem {a b s x : ℤ} (hs : 0 < s) (hx : x ∈ pyRange a b s) :
    a ≤ x ∧ x < b := by
  rw [pyRange, if_pos hs] at hx
  exact pyRangeAux_mem s hs _ a b x hx

theorem pyRange_ne_nil {a b s : ℤ} (hs : 0 < s) (hab : a < b) :
    pyRange a b s ≠ [] := by
  rw [pyRange, if_pos hs]
  have hfuel : 0 < (b - a).toNat := by omega
  match hf : (b - a).toNat with
  | 0 => omega
  | fuel + 1 => rw [pyRangeAux, if_pos hab]; simp

/-- Python exceptions raised by the core.  The `ValueError`s raised at
distinct sites carry distinct messages and are modelled as distinct
constructors: `frameUnreadable` (`无法读取帧` in `set_reference_frame`),
`refNotSet` (`请先设置参考帧`), `lapTooShort` (`圈速过短`), `indexError`
(list indexing out of range), `attributeError` (attribute access on the
released `None` capture handle). -/
inductive PyExn where
  | attributeError
  | frameUnreadable
  | refNotSet
  | lapTooShort
  | indexError
deriving DecidableEq

/-- State of the Frame Store (`LapCounter`'s video fields): the capture
handle (`self.cap`, `true` while open), its decode cursor
(`CAP_PROP_POS_FRAMES`), `self.last_frame_idx`, `self.frame_cache` as an
association list from frame index to decoded content, and the validated
total frame count. -/
structure FSState where
  cap : Bool
  pos : ℤ
  last : ℤ
  cache : List (ℤ × ℤ)
  total : ℤ
deriving DecidableEq

/-- Cache lookup (`frame_idx in self.frame_cache` / `self.frame_cache[frame_idx]`). -/
def cacheGet (c : List (ℤ × ℤ)) (k : ℤ) : Option ℤ :=
  (c.find? (fun p => p.1 == k)).map (·.2)

/-- `if len(self.frame_cache) < 100: self.frame_cache[k] = v` — the
bounded cache write used throughout `get_frame`. -/
def cachePut (c : List (ℤ × ℤ)) (k v : ℤ) : List (ℤ × ℤ) :=
  if c.length < 100 then
    if (c.find? (fun p => p.1 == k)).isSome then
      c.map (fun p => if p.1 == k then (k, v) else p)
    else c ++ [(k, v)]
  else c

/-- `self.cap.read()` on the exactly-seeking stream model: succeeds iff the
cursor is a valid frame position, yielding the frame at the cursor and
advancing it. -/
def capRead (s : FSState) : Option ℤ × FSState :=
  if 0 ≤ s.pos ∧ s.pos < s.total then (some s.pos, { s with pos := s.pos + 1 })
  else (none, s)

/-- The small-index fallback loop of `get_frame`
(`for i in range(frame_idx + 1)` after seeking to frame 0): reads forward
frame by frame, returning at `i == frame_idx` and opportunistically caching
every 10th frame passed; `fuel` is the remaining iteration count. -/
def smallScan (idx : ℤ) : ℕ → ℕ → FSState → Option ℤ × FSState
  | 0, _, s => (none, s)
  | fuel + 1, i, s =>
    match capRead s with
    | (none, s') => (none, s')
    | (some f, s') =>
      if (i : ℤ) = idx then
        (some f, { s' with last := idx, cache := cachePut s'.cache idx f })
      else if s'.cache.length < 100 ∧ i % 10 = 0 then
        smallScan idx fuel (i + 1) { s' with cache := cachePut s'.cache (i : ℤ) f }
      else smallScan idx fuel (i + 1) s'

/-- The large-index fallback loop of `get_frame`
(`for i in range(frame_idx - safe_start + 1)` after seeking to
`safe_start`): reads forward, returning when `safe_start + i == frame_idx`;
`current` is `safe_start + i`, `fuel` the remaining iteration count. -/
def largeScan (idx : ℤ) : ℕ → ℤ → FSState → Option ℤ × FSState
  | 0, _, s => (none, s)
  | fuel + 1, current, s =>
    match capRead s with
    | (none, s') => (none, s')
    | (some f, s') =>
      if current = idx then
        (some f, { s' with last := idx, cache := cachePut s'.cache idx f })
      else largeScan idx fuel (current + 1) s'

/-- Strategies 2 and 3 of `get_frame`: seek directly to `idx`, verify the
reported position, and on a mismatch or negative report fall back to the
bounded linear re-decode (from frame 0 for `idx < 200`, else from
`max 0 (idx - 50)`). -/
def seekRead (s : FSState) (idx : ℤ) : Option ℤ × FSState :=
  let s1 := { s with pos := idx }
  let actual := s1.pos
  if actual ≠ idx ∨ actual < 0 then
    if idx < 200 then
      smallScan idx (idx + 1).toNat 0 { s1 with pos := 0, last := -1 }
    else
      let safe := max 0 (idx - 50)
      largeScan idx (idx - safe + 1).toNat safe { s1 with pos := safe }
  else
    match capRead s1 with
    | (none, s2) => (none, s2)
    | (some f, s2) =>
      (some f, { s2 with last := idx, cache := cachePut s2.cache idx f })

/-- `LapCounter.get_frame(frame_idx)`: cache hit, else the sequential-read
fast path when `idx == last_frame_idx + 1`, else seek-and-verify with
fallbacks.  Touching the released capture handle (`self.cap = None`) raises
an `AttributeError`; the cache is consulted before the handle. -/
def getFrame (s : FSState) (idx : ℤ) : Except PyExn (Option ℤ × FSState) :=
  match cacheGet s.cache idx with
  | some v => .ok (some v, s)
  | none =>
    if s.cap = false then .error .attributeError
    else if idx = s.last + 1 then
      match capRead s with
      | (some f, s') =>
        .ok (some f, { s' with last := idx, cache := cachePut s'.cache idx f })
      | (none, s') => .ok (seekRead s' idx)
    else .ok (seekRead s idx)

/-- State of one `LapCounter` session: the Frame Store plus the lap-timing
fields `fps`, `min_lap_time`, `ref_frame_idx`, `ref_feature` (the id of the
stored reference feature vector), `lap_times` and `lap_frame_indices`. -/
structure LVState where
  fs : FSState
  fps : ℚ
  min_lap_time : ℚ
  ref_frame_idx : Option ℤ
  ref_feature : Option ℤ
  lap_times : List ℚ
  lap_frame_indices : List ℤ
deriving DecidableEq

/-- The session produced by `LapCounter.__init__` for a video with the
given (validated) frame count and frame rate: capture open at position 0,
`last_frame_idx = -1`, empty cache, no reference, no laps. -/
def initLV (total : ℤ) (fps min_lap : ℚ) : LVState :=
  { fs := { cap := true, pos := 0, last := -1, cache := [], total := total },
    fps := fps, min_lap_time := min_lap,
    ref_frame_idx := none, ref_feature := none,
    lap_times := [], lap_frame_indices := [] }

/-- `LapCounter.set_reference_frame(frame_idx)`: decode via `get_frame`
(raising `ValueError` when it yields no frame), then store the index and
the embedding of the decoded frame.  `embed` is the abstract embedding
oracle (`extract_frame_feature`). -/
def setReferenceFrame (embed : ℤ → ℤ) (s : LVState) (idx : ℤ) :
    Except PyExn ℤ × LVState :=
  match getFrame s.fs idx with
  | .error e => (.error e, s)
  | .ok (none, fs') => (.error .frameUnreadable, { s with fs := fs' })
  | .ok (some f, fs') =>
      (.ok f, { s with fs := fs', ref_frame_idx := some idx,
                       ref_feature := some (embed f) })

/-- `LapCounter.record_lap(end_frame_idx)`: requires a reference frame,
computes the lap duration, rejects it (before any mutation) when shorter
than `min_lap_time`, otherwise appends to both lap lists and advances
`ref_frame_idx` to the confirmed frame.  `ref_feature` is not touched. -/
def recordLap (s : LVState) (end_frame_idx : ℤ) : Except PyExn ℚ × LVState :=
  match s.ref_frame_idx with
  | none => (.error .refNotSet, s)
  | some ref =>
    let lap_time := ((end_frame_idx : ℚ) - (ref : ℚ)) / s.fps
    if lap_time < s.min_lap_time then (.error .lapTooShort, s)
    else
      (.ok lap_time,
       { s with lap_times := s.lap_times ++ [lap_time],
                lap_frame_indices := s.lap_frame_indices ++ [end_frame_idx],
                ref_frame_idx := some end_frame_idx })

/-- `LapCounter.close()`: release the capture handle (guarded, so a second
call finds it already `None` and skips the release) and clear the cache.
A total function — the source has no raising path. -/
def closeSession (s : LVState) : LVState :=
  { s with fs := { s.fs with cap := false, cache := [] } }

/-- The `laps` list of `LapCounter.get_lap_statistics()`: the comprehension
`[{lap_number: i+1, time: t, frame_index: self.lap_frame_indices[i]} for
i, t in enumerate(self.lap_times)]`, where the bracket indexing raises an
`IndexError` if `lap_frame_indices` is shorter than `lap_times`. -/
def lapsList : List ℚ → ℕ → List ℤ → Except PyExn (List (ℕ × ℚ × ℤ))
  | [], _, _ => .ok []
  | t :: ts, i, idxs =>
    match idxs[i]? with
    | none => .error .indexError
    | some fi => (lapsList ts (i + 1) idxs).map (fun l => (i + 1, t, fi) :: l)

/-- The lap pairing computed by `get_lap_statistics` (its summary fields —
best/worst/average/total — are derived from `lap_times` alone and are not
modelled). -/
def getLapStatistics (s : LVState) : Except PyExn (List (ℕ × ℚ × ℤ)) :=
  lapsList s.lap_times 0 s.lap_frame_indices

/-- The similarity-collection loop of `find_top_k_similar_frames`: decode
each candidate, skip it when `get_frame` yields no frame, otherwise score
it; the Frame Store state threads through the loop. -/
def collectSims (score : ℤ → ℚ) : FSState → List ℤ →
    Except PyExn (List (ℤ × ℤ × ℚ)) × FSState
  | fs, [] => (.ok [], fs)
  | fs, i :: rest =>
    match getFrame fs i with
    | .error e => (.error e, fs)
    | .ok (none, fs') => collectSims score fs' rest
    | .ok (some f, fs') =>
      match collectSims score fs' rest with
      | (.ok l, fs'') => (.ok ((i, f, score f) :: l), fs'')
      | (.error e, fs'') => (.error e, fs'')

/-- The comparison used by `similarities.sort(key=lambda x: x[2],
reverse=True)`: non-increasing similarity score. -/
def simGE (a b : ℤ × ℤ × ℚ) : Prop := b.2.2 ≤ a.2.2

instance : DecidableRel simGE := fun a b => inferInstanceAs (Decidable (b.2.2 ≤ a.2.2))

/-- `LapCounter.find_top_k_similar_frames(frame_indices, k)`: requires a
stored reference feature, scores every decodable candidate with the dot
product against it, stably sorts by descending score and keeps the first
`k`.  (Python's stable descending sort coincides with
`List.insertionSort simGE`.)  `embed` and `dot` abstract the oracle. -/
def findTopK (embed : ℤ → ℤ) (dot : ℤ → ℤ → ℚ) (s : LVState)
    (frame_indices : List ℤ) (k : ℕ) :
    Except PyExn (List (ℤ × ℤ × ℚ)) × LVState :=
  match s.ref_feature with
  | none => (.error .refNotSet, s)
  | some rf =>
    match collectSims (fun f => dot rf (embed f)) s.fs frame_indices with
    | (.ok sims, fs') =>
      (.ok ((sims.insertionSort simGE).take k), { s with fs := fs' })
    | (.error e, fs') => (.error e, { s with fs := fs' })

/-- Error results of the `/api/search-lap` route, one per early-return
branch (plus `stepZero` for the `ValueError` Python's `range` raises on a
zero step, caught by the route's generic handler). -/
inductive SearchErr where
  | refNotSet
  | endOfVideo
  | insufficientRemaining
  | emptySearchRange
  | stepZero
deriving DecidableEq

/-- The window computation and candidate sampling of the `/api/search-lap`
route (`app.py`, `search_lap`), up to the point where the sampled frames
are handed to `find_top_k_similar_frames`: on success returns
`(min_frame, max_frame, sampled_frames)`. -/
def searchCandidates (s : LVState) (search_range : ℚ) :
    Except SearchErr (ℤ × ℤ × List ℤ) :=
  match s.ref_frame_idx with
  | none => .error .refNotSet
  | some ref =>
    let start := s.lap_frame_indices.getLast?.getD ref
    let min_frame := start + pyInt (s.min_lap_time * s.fps)
    let max_frame := min (min_frame + pyInt (search_range * s.fps)) (s.fs.total - 1)
    if s.fs.total ≤ min_frame then .error .endOfVideo
    else
      let max_frame2 := if max_frame ≤ min_frame then s.fs.total - 1 else max_frame
      if max_frame2 ≤ min_frame then .error .insufficientRemaining
      else
        let step := pyInt (1 / 10 * s.fps)
        if step = 0 then .error .stepZero
        else
          let sampled := pyRange min_frame max_frame2 step
          if sampled = [] then .error .emptySearchRange
          else .ok (min_frame, max_frame2, sampled)

/-- Session states reachable from a freshly opened session through the
core's operations (`get_frame`, `set_reference_frame`,
`find_top_k_similar_frames` as invoked by the search route, `record_lap`,
`close`; `get_lap_statistics`, `get_video_info` and `save_results` do not
mutate the session). -/
inductive Reach (embed : ℤ → ℤ) : LVState → Prop where
  | init (total : ℤ) (fps min_lap : ℚ) (htotal : 0 < total) (hfps : 0 < fps) :
      Reach embed (initLV total fps min_lap)
  | getFrameStep {s : LVState} {idx : ℤ} {r : Option ℤ} {fs' : FSState} :
      Reach embed s → getFrame s.fs idx = .ok (r, fs') →
      Reach embed { s with fs := fs' }
  | setRefStep {s : LVState} {idx : ℤ} {res : Except PyExn ℤ} {s' : LVState} :
      Reach embed s → setReferenceFrame embed s idx = (res, s') → Reach embed s'
  | recordStep {s : LVState} {idx : ℤ} {res : Except PyExn ℚ} {s' : LVState} :
      Reach embed s → recordLap s idx = (res, s') → Reach embed s'
  | topKStep {s : LVState} {idxs : List ℤ} {k : ℕ}
      {res : Except PyExn (List (ℤ × ℤ × ℚ))} {s' : LVState}
      (dot : ℤ → ℤ → ℚ) :
      Reach embed s → findTopK embed dot s idxs k = (res, s') → Reach embed s'
  | closeStep {s : LVState} : Reach embed s → Reach embed (closeSession s)

/-- Invariant of the Frame Store on the exactly-seeking stream model: the
frame count is validated positive, `last_frame_idx` is `-1` or a valid
frame index, the cursor either sits right after the last returned frame
(the sequential fast path is then sound) or beyond the end of the stream,
and every cached key is a valid frame index. -/
structure FSInv (fs : FSState) : Prop where
  total_pos : 0 < fs.total
  last_lb : -1 ≤ fs.last
  last_ub : fs.last < fs.total
  pos_ok : fs.pos = fs.last + 1 ∨ fs.total ≤ fs.pos
  cache_ok : ∀ p ∈ fs.cache, 0 ≤ p.1 ∧ p.1 < fs.total

theorem capRead_some {s : FSState} {f : ℤ} {s' : FSState}
    (h : capRead s = (some f, s')) :
    0 ≤ s.pos ∧ s.pos < s.total ∧ f = s.pos ∧ s' = { s with pos := s.pos + 1 } := by
  unfold capRead at h
  split at h
  · next hc =>
    rw [Prod.mk.injEq] at h
    obtain ⟨h1, h2⟩ := h
    injection h1 with h1
    exact ⟨hc.1, hc.2, h1.symm, h2.symm⟩
  · simp at h

theorem capRead_none {s s' : FSState} (h : capRead s = (none, s')) :
    s' = s ∧ (s.pos < 0 ∨ s.total ≤ s.pos) := by
  unfold capRead at h
  split at h
  · simp at h
  · next hc => exact ⟨by injection h with h1 h2; exact h2.symm, by omega⟩

theorem cacheGet_key {c : List (ℤ × ℤ)} {k v : ℤ} (h : cacheGet c k = some v) :
    ∃ p ∈ c, p.1 = k := by
  unfold cacheGet at h
  cases hf : c.find? (fun p => p.1 == k) with
  | none => rw [hf] at h; simp at h
  | some p =>
    refine ⟨p, List.mem_of_find?_eq_some hf, ?_⟩
    have := List.find?_some hf
    simpa using this

theorem cachePut_keys {c : List (ℤ × ℤ)} {k v : ℤ} {P : ℤ → Prop}
    (hc : ∀ p ∈ c, P p.1) (hk : P k) : ∀ p ∈ cachePut c k v, P p.1 := by
  intro p hp
  unfold cachePut at hp
  split at hp
  · split at hp
    · obtain ⟨q, hq, hq2⟩ := List.mem_map.mp hp
      by_cases hqk : q.1 = k
      · rw [if_pos (by simpa using hqk)] at hq2
        rw [← hq2]; exact hk
      · rw [if_neg (by simpa using hqk)] at hq2
        rw [← hq2]; exact hc q hq
    · rcases List.mem_append.mp hp with h | h
      · exact hc p h
      · simp only [List.mem_singleton] at h
        rw [h]; exact hk
  · exact hc p hp

theorem seekRead_nonneg (s : FSState) {idx : ℤ} (h0 : 0 ≤ idx) :
    seekRead s idx =
      if idx < s.total then
        (some idx, { s with pos := idx + 1, last := idx,
                            cache := cachePut s.cache idx idx })
      else (none, { s with pos := idx }) := by
  unfold seekRead
  dsimp only
  rw [if_neg (by omega : ¬(idx ≠ idx ∨ idx < 0))]
  unfold capRead
  dsimp only
  by_cases h : idx < s.total
  · rw [if_pos h, if_pos ⟨h0, h⟩]
  · rw [if_neg h, if_neg (by omega : ¬(0 ≤ idx ∧ idx < s.total))]

theorem seekRead_neg (s : FSState) {idx : ℤ} (h0 : idx < 0) :
    seekRead s idx = (none, { s with pos := 0, last := -1 }) := by
  unfold seekRead
  rw [if_pos (Or.inr h0), if_pos (by omega : idx < 200)]
  have ht : (idx + 1).toNat = 0 := by omega
  rw [ht]
  rfl

/-- On an open session satisfying the invariant, a cache miss resolves
uniformly: a valid index decodes to its own frame (through either the
sequential fast path or the verified seek), an index at or past the end of
the stream yields no frame and leaves the cursor there, and a negative
index falls into the small-index fallback whose loop body runs zero times. -/
theorem getFrame_char {fs : FSState} (idx : ℤ) (hinv : FSInv fs)
    (hcap : fs.cap = true) (hmiss : cacheGet fs.cache idx = none) :
    getFrame fs idx =
      if 0 ≤ idx then
        if idx < fs.total then
          .ok (some idx, { fs with pos := idx + 1, last := idx,
                                   cache := cachePut fs.cache idx idx })
        else .ok (none, { fs with pos := idx })
      else .ok (none, { fs with pos := 0, last := -1 }) := by
  unfold getFrame
  rw [hmiss, if_neg (by rw [hcap]; simp)]
  by_cases hseq : idx = fs.last + 1
  · have h0 : 0 ≤ idx := by have := hinv.last_lb; omega
    rw [if_pos hseq]
    by_cases hp : 0 ≤ fs.pos ∧ fs.pos < fs.total
    · have hcr : capRead fs = (some fs.pos, { fs with pos := fs.pos + 1 }) := by
        unfold capRead; rw [if_pos hp]
      rw [hcr]
      have hpi : fs.pos = idx := by
        rcases hinv.pos_ok with h | h
        · omega
        · omega
      rw [if_pos h0, if_pos (by omega : idx < fs.total)]
      subst hpi
      rfl
    · have hcr : capRead fs = (none, fs) := by
        unfold capRead; rw [if_neg hp]
      rw [hcr]
      show Except.ok (seekRead fs idx) = _
      rw [seekRead_nonneg fs h0, if_pos h0]
      split <;> rfl
  · rw [if_neg hseq]
    by_cases h0 : 0 ≤ idx
    · show Except.ok (seekRead fs idx) = _
      rw [seekRead_nonneg fs h0, if_pos h0]
      split <;> rfl
    · rw [seekRead_neg fs (by omega), if_neg h0]

/-- `get_frame` preserves the Frame Store invariant and never changes the
frame count or the capture handle. -/
theorem getFrame_ok_inv {fs : FSState} {idx : ℤ} {r : Option ℤ} {fs' : FSState}
    (hinv : FSInv fs) (h : getFrame fs idx = .ok (r, fs')) :
    FSInv fs' ∧ fs'.total = fs.total ∧ fs'.cap = fs.cap := by
  by_cases hcap : fs.cap = true
  · cases hc : cacheGet fs.cache idx with
    | some v =>
      unfold getFrame at h
      rw [hc] at h
      simp only [Except.ok.injEq, Prod.mk.injEq] at h
      rw [← h.2]
      exact ⟨hinv, rfl, rfl⟩
    | none =>
      rw [getFrame_char idx hinv hcap hc] at h
      split at h
      · next h0 =>
        split at h
        · next h1 =>
          simp only [Except.ok.injEq, Prod.mk.injEq] at h
          obtain ⟨-, h2⟩ := h
          subst h2
          refine ⟨⟨?_, ?_, ?_, ?_, ?_⟩, rfl, rfl⟩ <;> dsimp only
          · exact hinv.total_pos
          · omega
          · exact h1
          · exact Or.inl rfl
          · exact cachePut_keys (P := fun k => 0 ≤ k ∧ k < fs.total)
              hinv.cache_ok ⟨h0, h1⟩
        · next h1 =>
          simp only [Except.ok.injEq, Prod.mk.injEq] at h
          obtain ⟨-, h2⟩ := h
          subst h2
          refine ⟨⟨?_, ?_, ?_, ?_, ?_⟩, rfl, rfl⟩ <;> dsimp only
          · exact hinv.total_pos
          · exact hinv.last_lb
          · exact hinv.last_ub
          · exact Or.inr (by omega)
          · exact hinv.cache_ok
      · next h0 =>
        simp only [Except.ok.injEq, Prod.mk.injEq] at h
        obtain ⟨-, h2⟩ := h
        subst h2
        refine ⟨⟨?_, ?_, ?_, ?_, ?_⟩, rfl, rfl⟩ <;> dsimp only
        · exact hinv.total_pos
        · omega
        · have := hinv.total_pos
          omega
        · exact Or.inl (by omega)
        · exact hinv.cache_ok
  · unfold getFrame at h
    cases hc : cacheGet fs.cache idx with
    | some v =>
      rw [hc] at h
      simp only [Except.ok.injEq, Prod.mk.injEq] at h
      rw [← h.2]
      exact ⟨hinv, rfl, rfl⟩
    | none =>
      rw [hc, if_pos (by revert hcap; cases fs.cap <;> simp)] at h
      simp at h

/-- On an invariant-satisfying store, `get_frame` yields a frame only for a
valid index — the basis for the range invariant on references set through
`set_reference_frame`. -/
theorem getFrame_some_range {fs : FSState} {idx : ℤ} {f : ℤ} {fs' : FSState}
    (hinv : FSInv fs) (h : getFrame fs idx = .ok (some f, fs')) :
    0 ≤ idx ∧ idx < fs.total := by
  by_cases hcap : fs.cap = true
  · cases hc : cacheGet fs.cache idx with
    | some v =>
      obtain ⟨p, hp, hpk⟩ := cacheGet_key hc
      have := hinv.cache_ok p hp
      omega
    | none =>
      rw [getFrame_char idx hinv hcap hc] at h
      split at h
      · split at h
        · next h0 h1 => exact ⟨‹0 ≤ idx›, h1⟩
        · simp at h
      · simp at h
  · unfold getFrame at h
    cases hc : cacheGet fs.cache idx with
    | some v =>
      obtain ⟨p, hp, hpk⟩ := cacheGet_key hc
      have := hinv.cache_ok p hp
      omega
    | none =>
      rw [hc, if_pos (by revert hcap; cases fs.cap <;> simp)] at h
      simp at h

/-- On an open, invariant-satisfying store, an out-of-range index — negative
or at/past the frame count — always resolves to "no frame", with no
exception and no pixel buffer. -/
theorem getFrame_oor {fs : FSState} {idx : ℤ} (hinv : FSInv fs)
    (hcap : fs.cap = true) (hidx : idx < 0 ∨ fs.total ≤ idx) :
    ∃ fs', getFrame fs idx = .ok (none, fs') := by
  have hmiss : cacheGet fs.cache idx = none := by
    cases hc : cacheGet fs.cache idx with
    | none => rfl
    | some v =>
      obtain ⟨p, hp, hpk⟩ := cacheGet_key hc
      have := hinv.cache_ok p hp
      omega
  rw [getFrame_char idx hinv hcap hmiss]
  rcases hidx with h | h
  · rw [if_neg (by omega)]
    exact ⟨_, rfl⟩
  · rw [if_pos (by have := hinv.total_pos; omega), if_neg (by omega)]
    exact ⟨_, rfl⟩

/-- The candidate-collection loop preserves the Frame Store invariant and
keeps the frame count and capture handle fixed. -/
theorem collectSims_inv (sc : ℤ → ℚ) :
    ∀ (l : List ℤ) (fs : FSState) (res : Except PyExn (List (ℤ × ℤ × ℚ)))
      (fs' : FSState), FSInv fs → collectSims sc fs l = (res, fs') →
      FSInv fs' ∧ fs'.total = fs.total ∧ fs'.cap = fs.cap
  | [], fs, res, fs' => by
    intro hinv h
    unfold collectSims at h
    rw [Prod.mk.injEq] at h
    rw [← h.2]
    exact ⟨hinv, rfl, rfl⟩
  | i :: rest, fs, res, fs' => by
    intro hinv h
    unfold collectSims at h
    cases hg : getFrame fs i with
    | error e =>
      rw [hg] at h
      dsimp only at h
      rw [Prod.mk.injEq] at h
      rw [← h.2]
      exact ⟨hinv, rfl, rfl⟩
    | ok p =>
      obtain ⟨o, fs1⟩ := p
      rw [hg] at h
      obtain ⟨hinv1, ht1, hc1⟩ := getFrame_ok_inv hinv hg
      cases o with
      | none =>
        obtain ⟨h2, h3, h4⟩ := collectSims_inv sc rest fs1 res fs' hinv1 h
        exact ⟨h2, h3.trans ht1, h4.trans hc1⟩
      | some f =>
        dsimp only at h
        cases hrec : collectSims sc fs1 rest with
        | mk r2 fs2 =>
          obtain ⟨h2, h3, h4⟩ := collectSims_inv sc rest fs1 r2 fs2 hinv1 hrec
          rw [hrec] at h
          cases r2 with
          | ok l2 =>
            dsimp only at h
            rw [Prod.mk.injEq] at h
            rw [← h.2]
            exact ⟨h2, h3.trans ht1, h4.trans hc1⟩
          | error e =>
            dsimp only at h
            rw [Prod.mk.injEq] at h
            rw [← h.2]
            exact ⟨h2, h3.trans ht1, h4.trans hc1⟩

/-- A successfully collected similarity list has at most one entry per
candidate index. -/
theorem collectSims_length (sc : ℤ → ℚ) :
    ∀ (l : List ℤ) (fs : FSState) (sims : List (ℤ × ℤ × ℚ)) (fs' : FSState),
      collectSims sc fs l = (.ok sims, fs') → sims.length ≤ l.length
  | [], fs, sims, fs' => by
    intro h
    unfold collectSims at h
    rw [Prod.mk.injEq] at h
    obtain ⟨h1, -⟩ := h
    injection h1 with h1
    simp [← h1]
  | i :: rest, fs, sims, fs' => by
    intro h
    unfold collectSims at h
    cases hg : getFrame fs i with
    | error e =>
      rw [hg] at h
      dsimp only at h
      rw [Prod.mk.injEq] at h
      obtain ⟨h1, -⟩ := h
      simp at h1
    | ok p =>
      obtain ⟨o, fs1⟩ := p
      rw [hg] at h
      cases o with
      | none =>
        have := collectSims_length sc rest fs1 sims fs' h
        simp only [List.length_cons]
        omega
      | some f =>
        dsimp only at h
        cases hrec : collectSims sc fs1 rest with
        | mk r2 fs2 =>
          rw [hrec] at h
          cases r2 with
          | ok l2 =>
            dsimp only at h
            rw [Prod.mk.injEq] at h
            obtain ⟨h1, -⟩ := h
            injection h1 with h1
            have := collectSims_length sc rest fs1 l2 fs2 hrec
            rw [← h1]
            simp only [List.length_cons]
            omega
          | error e =>
            dsimp only at h
            rw [Prod.mk.injEq] at h
            obtain ⟨h1, -⟩ := h
            simp at h1

/-- The session-level invariant: the Frame Store invariant, plus the two
lap lists kept in lockstep. -/
def LVInv (s : LVState) : Prop :=
  FSInv s.fs ∧ s.lap_times.length = s.lap_frame_indices.length

/-- Every reachable session state satisfies the session invariant. -/
theorem reach_inv {embed : ℤ → ℤ} {s : LVState} (h : Reach embed s) : LVInv s := by
  induction h with
  | init total fps min_lap ht hf =>
    refine ⟨⟨?_, ?_, ?_, ?_, ?_⟩, rfl⟩ <;> dsimp only [initLV]
    · exact ht
    · omega
    · omega
    · exact Or.inl (by omega)
    · intro p hp
      simp at hp
  | getFrameStep hs hg ih =>
    exact ⟨(getFrame_ok_inv ih.1 hg).1, ih.2⟩
  | setRefStep hs he ih =>
    rename_i s idx res s'
    unfold setReferenceFrame at he
    cases hg : getFrame s.fs idx with
    | error e =>
      rw [hg] at he
      dsimp only at he
      rw [Prod.mk.injEq] at he
      rw [← he.2]
      exact ih
    | ok p =>
      obtain ⟨o, fs1⟩ := p
      rw [hg] at he
      cases o with
      | none =>
        rw [Prod.mk.injEq] at he
        rw [← he.2]
        exact ⟨(getFrame_ok_inv ih.1 hg).1, ih.2⟩
      | some f =>
        rw [Prod.mk.injEq] at he
        rw [← he.2]
        exact ⟨(getFrame_ok_inv ih.1 hg).1, ih.2⟩
  | recordStep hs he ih =>
    rename_i s idx res s'
    unfold recordLap at he
    cases href : s.ref_frame_idx with
    | none =>
      rw [href] at he
      dsimp only at he
      rw [Prod.mk.injEq] at he
      rw [← he.2]
      exact ih
    | some ref =>
      rw [href] at he
      dsimp only at he
      split at he
      · rw [Prod.mk.injEq] at he
        rw [← he.2]
        exact ih
      · rw [Prod.mk.injEq] at he
        rw [← he.2]
        refine ⟨ih.1, ?_⟩
        have h12 := ih.2
        simp only [List.length_append, List.length_singleton]
        omega
  | topKStep dot hs he ih =>
    rename_i s idxs k res s'
    unfold findTopK at he
    cases href : s.ref_feature with
    | none =>
      rw [href] at he
      dsimp only at he
      rw [Prod.mk.injEq] at he
      rw [← he.2]
      exact ih
    | some rf =>
      rw [href] at he
      dsimp only at he
      cases hcs : collectSims (fun f => dot rf (embed f)) s.fs idxs with
      | mk r2 fs2 =>
        rw [hcs] at he
        have h2 := (collectSims_inv _ _ _ _ _ ih.1 hcs).1
        cases r2 with
        | ok sims =>
          dsimp only at he
          rw [Prod.mk.injEq] at he
          rw [← he.2]
          exact ⟨h2, ih.2⟩
        | error e =>
          dsimp only at he
          rw [Prod.mk.injEq] at he
          rw [← he.2]
          exact ⟨h2, ih.2⟩
  | closeStep hs ih =>
    refine ⟨⟨ih.1.total_pos, ih.1.last_lb, ih.1.last_ub, ih.1.pos_ok, ?_⟩, ih.2⟩
    intro p hp
    simp [closeSession] at hp

/-- Session used by the concrete witnesses: the spec's demo scenario
(fps = 30, 9000 frames, 18 s minimum lap) right after a successful
`set_reference_frame(0)` with the identity embedding oracle. -/
def demoRef : LVState :=
  { fs := { cap := true, pos := 1, last := 0, cache := [(0, 0)], total := 9000 },
    fps := 30, min_lap_time := 18, ref_frame_idx := some 0, ref_feature := some 0,
    lap_times := [], lap_frame_indices := [] }

/-- `demoRef` after a successful `record_lap(600)` — a 20 s lap.  Note
`ref_feature` still holds the embedding of frame 0. -/
def demoLap : LVState :=
  { demoRef with ref_frame_idx := some 600,
                 lap_times := [20], lap_frame_indices := [600] }

/-- C1: with a reference frame set, `record_lap(f)` is rejected with the
lap-too-short `ValueError` exactly when `(f - ref_frame_idx) / fps <
min_lap_time`, and a rejected call returns the session state completely
unchanged (the raise precedes every mutation); when the duration reaches
`min_lap_time` the call never fails with that error. -/
theorem recordLap_tooShort_exact (s : LVState) (ref f : ℤ)
    (href : s.ref_frame_idx = some ref) :
    (((f : ℚ) - (ref : ℚ)) / s.fps < s.min_lap_time →
      recordLap s f = (.error .lapTooShort, s)) ∧
    (¬ ((f : ℚ) - (ref : ℚ)) / s.fps < s.min_lap_time →
      (recordLap s f).1 ≠ .error .lapTooShort) := by
  unfold recordLap
  rw [href]
  dsimp only
  constructor
  · intro hlt
    rw [if_pos hlt]
  · intro hge
    rw [if_neg hge]
    simp

/-- C1 witness: at `demoRef`, confirming frame 300 is a 10 s lap, below the
18 s minimum: rejected with the lap-too-short error, state unchanged. -/
theorem recordLap_tooShort_exact_witness :
    demoRef.ref_frame_idx = some 0 ∧
    (((300 : ℤ) : ℚ) - ((0 : ℤ) : ℚ)) / demoRef.fps < demoRef.min_lap_time ∧
    recordLap demoRef 300 = (.error .lapTooShort, demoRef) := by
  refine ⟨rfl, by norm_num [demoRef], ?_⟩
  exact (recordLap_tooShort_exact demoRef 0 300 rfl).1 (by norm_num [demoRef])

/-- C4: a successful `record_lap(f)` sets `ref_frame_idx` to `f`, appends
exactly one entry to each lap list — the new frame entry being `f` — and
returns the lap duration `(f - previous reference) / fps`. -/
theorem recordLap_success_post (s : LVState) (ref f : ℤ) (t : ℚ) (s' : LVState)
    (href : s.ref_frame_idx = some ref)
    (h : recordLap s f = (.ok t, s')) :
    s'.ref_frame_idx = some f ∧
    s'.lap_times = s.lap_times ++ [t] ∧
    s'.lap_frame_indices = s.lap_frame_indices ++ [f] ∧
    s'.lap_times.length = s.lap_times.length + 1 ∧
    s'.lap_frame_indices.length = s.lap_frame_indices.length + 1 ∧
    t = ((f : ℚ) - (ref : ℚ)) / s.fps := by
  unfold recordLap at h
  rw [href] at h
  dsimp only at h
  split at h
  · rw [Prod.mk.injEq] at h
    exact absurd h.1 (by simp)
  · rw [Prod.mk.injEq] at h
    obtain ⟨h1, h2⟩ := h
    injection h1 with h1
    subst h2
    subst h1
    exact ⟨rfl, rfl, rfl, by simp, by simp, rfl⟩

/-- C4 witness: at `demoRef`, confirming frame 600 commits a 20 s lap with
the stated postconditions. -/
theorem recordLap_success_post_witness :
    demoRef.ref_frame_idx = some 0 ∧
    recordLap demoRef 600 = (.ok 20, demoLap) ∧
    (demoLap.ref_frame_idx = some 600 ∧
     demoLap.lap_times = demoRef.lap_times ++ [20] ∧
     demoLap.lap_frame_indices = demoRef.lap_frame_indices ++ [600] ∧
     demoLap.lap_times.length = demoRef.lap_times.length + 1 ∧
     demoLap.lap_frame_indices.length = demoRef.lap_frame_indices.length + 1 ∧
     (20 : ℚ) = (((600 : ℤ) : ℚ) - ((0 : ℤ) : ℚ)) / demoRef.fps) := by
  have h : recordLap demoRef 600 = (.ok 20, demoLap) := by
    norm_num [recordLap, demoRef, demoLap]
  exact ⟨rfl, h, recordLap_success_post demoRef 0 600 20 demoLap rfl h⟩

/-- C2 as amended: `set_reference_frame` does store the embedding of the
newly decoded reference frame, but a successful `record_lap` advances
`ref_frame_idx` while leaving `ref_feature` untouched — the reference
embedding is *not* recomputed when `record_lap` moves the reference. -/
theorem refEmbedding_update (embed : ℤ → ℤ) (s : LVState) :
    (∀ (f : ℤ) (t : ℚ) (s' : LVState),
        recordLap s f = (.ok t, s') → s'.ref_feature = s.ref_feature) ∧
    (∀ (idx fr : ℤ) (s' : LVState),
        setReferenceFrame embed s idx = (.ok fr, s') →
        s'.ref_frame_idx = some idx ∧ s'.ref_feature = some (embed fr)) := by
  constructor
  · intro f t s' h
    unfold recordLap at h
    cases href : s.ref_frame_idx with
    | none =>
      rw [href] at h
      dsimp only at h
      rw [Prod.mk.injEq] at h
      exact absurd h.1 (by simp)
    | some ref =>
      rw [href] at h
      dsimp only at h
      split at h
      · rw [Prod.mk.injEq] at h
        exact absurd h.1 (by simp)
      · rw [Prod.mk.injEq] at h
        rw [← h.2]
  · intro idx fr s' h
    unfold setReferenceFrame at h
    cases hg : getFrame s.fs idx with
    | error e =>
      rw [hg] at h
      dsimp only at h
      rw [Prod.mk.injEq] at h
      exact absurd h.1 (by simp)
    | ok p =>
      obtain ⟨o, fs1⟩ := p
      rw [hg] at h
      cases o with
      | none =>
        rw [Prod.mk.injEq] at h
        exact absurd h.1 (by simp)
      | some f =>
        rw [Prod.mk.injEq] at h
        obtain ⟨h1, h2⟩ := h
        injection h1 with h1
        subst h1
        rw [← h2]
        exact ⟨rfl, rfl⟩

/-- C2 counterexample: with the identity oracle, frame `f` embeds to `f`.
After `set_reference_frame(0)` the stored embedding is `some 0`; a
successful `record_lap(600)` moves the reference to frame 600 but the
session's `ref_feature` is still `some 0`, not the embedding `600` of the
new reference frame — refuting "recomputed whenever the reference
changes". -/
theorem refEmbedding_not_recomputed_cex :
    setReferenceFrame (fun n => n) (initLV 9000 30 18) 0 = (.ok 0, demoRef) ∧
    recordLap demoRef 600 = (.ok 20, demoLap) ∧
    demoLap.ref_frame_idx = some 600 ∧
    demoLap.ref_feature = some 0 ∧
    demoLap.ref_feature ≠ some ((fun n => n) 600) := by
  refine ⟨?_, ?_, rfl, rfl, by simp [demoLap, demoRef]⟩
  · norm_num [setReferenceFrame, getFrame, cacheGet, capRead, cachePut,
      initLV, demoRef]
  · norm_num [recordLap, demoRef, demoLap]

/-- C2 witness: instantiating the amended statement at `demoRef` with the
identity oracle — the committed lap leaves `ref_feature` at `some 0`, and
the original `set_reference_frame(0)` stored `some 0`. -/
theorem refEmbedding_update_witness :
    recordLap demoRef 600 = (.ok 20, demoLap) ∧
    demoLap.ref_feature = demoRef.ref_feature ∧
    setReferenceFrame (fun n => n) (initLV 9000 30 18) 0 = (.ok 0, demoRef) ∧
    (demoRef.ref_frame_idx = some 0 ∧ demoRef.ref_feature = some ((fun n => n) 0)) := by
  have h1 : recordLap demoRef 600 = (.ok 20, demoLap) := by
    norm_num [recordLap, demoRef, demoLap]
  have h2 : setReferenceFrame (fun n => n) (initLV 9000 30 18) 0 = (.ok 0, demoRef) := by
    norm_num [setReferenceFrame, getFrame, cacheGet, capRead, cachePut,
      initLV, demoRef]
  exact ⟨h1, (refEmbedding_update (fun n => n) demoRef).1 600 20 demoLap h1, h2,
    (refEmbedding_update (fun n => n) (initLV 9000 30 18)).2 0 0 demoRef h2⟩

/-- The `laps` comprehension succeeds and pairs the i-th lap time with the
i-th confirmed frame index whenever `lap_frame_indices` is long enough. -/
theorem lapsList_ok : ∀ (ts : List ℚ) (j : ℕ) (idxs : List ℤ),
    j + ts.length ≤ idxs.length →
    lapsList ts j idxs = .ok ((List.range ts.length).map
      (fun i => (j + i + 1, ts.getD i 0, idxs.getD (j + i) 0)))
  | [], j, idxs => by
    intro h
    simp [lapsList]
  | t :: ts, j, idxs => by
    intro h
    have hj : j < idxs.length := by
      simp only [List.length_cons] at h
      omega
    unfold lapsList
    rw [List.getElem?_eq_getElem hj]
    dsimp only
    rw [lapsList_ok ts (j + 1) idxs (by simp only [List.length_cons] at h; omega)]
    dsimp only [Except.map]
    congr 1
    simp only [List.length_cons]
    rw [List.range_succ_eq_map]
    simp only [List.map_cons, List.map_map]
    congr 1
    · simp [List.getD_eq_getElem?_getD, List.getElem?_eq_getElem hj]
    · apply List.map_congr_left
      intro i hi
      simp only [Function.comp_apply, List.getD_cons_succ, Prod.mk.injEq]
      refine ⟨by omega, trivial, ?_⟩
      congr 1
      omega

/-- C10: in every reachable session state the lap-duration list and the
lap-frame-index list have the same length, and `get_lap_statistics` builds
its `laps` list by pairing the i-th duration with the i-th confirmed frame
index, never indexing out of range. -/
theorem lapLists_aligned (embed : ℤ → ℤ) (s : LVState) (h : Reach embed s) :
    s.lap_times.length = s.lap_frame_indices.length ∧
    getLapStatistics s = .ok ((List.range s.lap_times.length).map
      (fun i => (i + 1, s.lap_times.getD i 0, s.lap_frame_indices.getD i 0))) := by
  have hlen := (reach_inv h).2
  refine ⟨hlen, ?_⟩
  unfold getLapStatistics
  rw [lapsList_ok s.lap_times 0 s.lap_frame_indices (by omega)]
  simp

/-- C10 witness: the reachable one-lap session `demoLap` has aligned lists
and statistics pairing lap 1 (20 s) with frame 600. -/
theorem lapLists_aligned_witness :
    demoLap.lap_times.length = demoLap.lap_frame_indices.length ∧
    getLapStatistics demoLap = .ok ((List.range demoLap.lap_times.length).map
      (fun i => (i + 1, demoLap.lap_times.getD i 0,
                 demoLap.lap_frame_indices.getD i 0))) := by
  have h1 : setReferenceFrame (fun n => n) (initLV 9000 30 18) 0 = (.ok 0, demoRef) := by
    norm_num [setReferenceFrame, getFrame, cacheGet, capRead, cachePut,
      initLV, demoRef]
  have h2 : recordLap demoRef 600 = (.ok 20, demoLap) := by
    norm_num [recordLap, demoRef, demoLap]
  exact lapLists_aligned (fun n => n) demoLap
    (Reach.recordStep (Reach.setRefStep
      (Reach.init 9000 30 18 (by norm_num) (by norm_num)) h1) h2)

/-- A tiny session (100 frames at 1 fps, 1 s minimum lap) right after
`set_reference_frame(0)` — used to exhibit the missing range check in
`record_lap`. -/
def tinyRef : LVState :=
  { fs := { cap := true, pos := 1, last := 0, cache := [(0, 0)], total := 100 },
    fps := 1, min_lap_time := 1, ref_frame_idx := some 0, ref_feature := some 0,
    lap_times := [], lap_frame_indices := [] }

/-- `tinyRef` after `record_lap(5000)` — a confirmed "lap" ending far past
the 100-frame video. -/
def overflowSession : LVState :=
  { tinyRef with ref_frame_idx := some 5000,
                 lap_times := [5000], lap_frame_indices := [5000] }

/-- C8 as amended: a reference installed by `set_reference_frame` always
lies within `[0, total_frame_count)` (the decode must succeed), but
`record_lap` performs no range validation at all — a successful
`confirm_lap(f)` sets `ref_frame_idx` to `f` whatever `f` is. -/
theorem refIndex_range (embed : ℤ → ℤ) :
    (∀ (s : LVState) (idx fr : ℤ) (s' : LVState), Reach embed s →
        setReferenceFrame embed s idx = (.ok fr, s') →
        s'.ref_frame_idx = some idx ∧ 0 ≤ idx ∧ idx < s'.fs.total) ∧
    (∀ (s : LVState) (f : ℤ) (t : ℚ) (s' : LVState),
        recordLap s f = (.ok t, s') → s'.ref_frame_idx = some f) := by
  constructor
  · intro s idx fr s' hreach h
    have hinv := (reach_inv hreach).1
    unfold setReferenceFrame at h
    cases hg : getFrame s.fs idx with
    | error e =>
      rw [hg] at h
      dsimp only at h
      rw [Prod.mk.injEq] at h
      exact absurd h.1 (by simp)
    | ok p =>
      obtain ⟨o, fs1⟩ := p
      rw [hg] at h
      cases o with
      | none =>
        rw [Prod.mk.injEq] at h
        exact absurd h.1 (by simp)
      | some f =>
        rw [Prod.mk.injEq] at h
        obtain ⟨-, h2⟩ := h
        have hrange := getFrame_some_range hinv hg
        have htot := (getFrame_ok_inv hinv hg).2.1
        rw [← h2]
        refine ⟨rfl, hrange.1, ?_⟩
        dsimp only
        omega
  · intro s f t s' h
    unfold recordLap at h
    cases href : s.ref_frame_idx with
    | none =>
      rw [href] at h
      dsimp only at h
      rw [Prod.mk.injEq] at h
      exact absurd h.1 (by simp)
    | some ref =>
      rw [href] at h
      dsimp only at h
      split at h
      · rw [Prod.mk.injEq] at h
        exact absurd h.1 (by simp)
      · rw [Prod.mk.injEq] at h
        rw [← h.2]

/-- C8 witness: on the fresh demo session, `set_reference_frame(0)` puts
the reference at 0, inside `[0, 9000)`. -/
theorem refIndex_range_witness :
    Reach (fun n => n) (initLV 9000 30 18) ∧
    setReferenceFrame (fun n => n) (initLV 9000 30 18) 0 = (.ok 0, demoRef) ∧
    (demoRef.ref_frame_idx = some 0 ∧ (0 : ℤ) ≤ 0 ∧ (0 : ℤ) < demoRef.fs.total) := by
  have hr : Reach (fun n => n) (initLV 9000 30 18) :=
    Reach.init 9000 30 18 (by norm_num) (by norm_num)
  have h1 : setReferenceFrame (fun n => n) (initLV 9000 30 18) 0 = (.ok 0, demoRef) := by
    norm_num [setReferenceFrame, getFrame, cacheGet, capRead, cachePut,
      initLV, demoRef]
  exact ⟨hr, h1, (refIndex_range (fun n => n)).1 (initLV 9000 30 18) 0 0 demoRef hr h1⟩

/-- C8 counterexample: `overflowSession` is reachable (set reference 0,
then confirm frame 5000 on a 100-frame video — `record_lap` accepts it
since 5000 s ≥ the 1 s minimum), yet its `ref_frame_idx` is 5000, far
outside `[0, total_frame_count) = [0, 100)` — refuting the claimed
invariant for states reached through `confirm_lap`. -/
theorem refIndex_range_cex :
    Reach (fun n => n) overflowSession ∧
    overflowSession.ref_frame_idx = some 5000 ∧
    overflowSession.fs.total = 100 ∧
    ¬ (5000 : ℤ) < overflowSession.fs.total := by
  have h1 : setReferenceFrame (fun n => n) (initLV 100 1 1) 0 = (.ok 0, tinyRef) := by
    norm_num [setReferenceFrame, getFrame, cacheGet, capRead, cachePut,
      initLV, tinyRef]
  have h2 : recordLap tinyRef 5000 = (.ok 5000, overflowSession) := by
    norm_num [recordLap, tinyRef, overflowSession]
  refine ⟨Reach.recordStep (Reach.setRefStep
    (Reach.init 100 1 1 (by norm_num) (by norm_num)) h1) h2, rfl, rfl, ?_⟩
  norm_num [overflowSession, tinyRef]

/-- C7: on every reachable open session, `get_frame` at any index outside
`[0, total_frame_count)` — negative included — returns the no-frame result:
no exception escapes and no pixel buffer is produced. -/
theorem getFrame_out_of_range_safe (embed : ℤ → ℤ) (s : LVState) (idx : ℤ)
    (h : Reach embed s) (hopen : s.fs.cap = true)
    (hidx : idx < 0 ∨ s.fs.total ≤ idx) :
    (getFrame s.fs idx).isOk = true ∧
    ∀ (f : ℤ) (fs' : FSState), getFrame s.fs idx ≠ .ok (some f, fs') := by
  obtain ⟨fs', heq⟩ := getFrame_oor (reach_inv h).1 hopen hidx
  refine ⟨by rw [heq]; rfl, ?_⟩
  intro f fs'' hne
  rw [heq] at hne
  simp at hne

/-- C7 witness: on the fresh demo session (9000 frames), requesting frame
9000 — one past the end — yields the no-frame result, and so does the
negative index -1. -/
theorem getFrame_out_of_range_safe_witness :
    (initLV 9000 30 18).fs.cap = true ∧
    (initLV 9000 30 18).fs.total ≤ 9000 ∧
    (getFrame (initLV 9000 30 18).fs 9000).isOk = true ∧
    getFrame (initLV 9000 30 18).fs 9000 ≠ .ok (some 9000, (initLV 9000 30 18).fs) ∧
    (getFrame (initLV 9000 30 18).fs (-1)).isOk = true := by
  have hr : Reach (fun n => n) (initLV 9000 30 18) :=
    Reach.init 9000 30 18 (by norm_num) (by norm_num)
  have h1 := getFrame_out_of_range_safe (fun n => n) (initLV 9000 30 18) 9000 hr rfl
    (Or.inr (by norm_num [initLV]))
  have h2 := getFrame_out_of_range_safe (fun n => n) (initLV 9000 30 18) (-1) hr rfl
    (Or.inl (by norm_num))
  exact ⟨rfl, by norm_num [initLV], h1.1, h1.2 9000 (initLV 9000 30 18).fs, h2.1⟩

/-- C9 as amended: `close()` is a total operation (the stream release is
guarded by `if self.cap:`) and a second `close()` is a no-op; after close
the handle is `None` and the cache empty, so any subsequent `get_frame`
raises `AttributeError` on the released handle — the code has no
`SessionClosed` error value.  (The HTTP layer additionally removes the
closed session from its registry, so post-close requests answer with an
invalid-session-id error rather than reaching the core.) -/
theorem close_idempotent_then_raises (s : LVState) :
    closeSession (closeSession s) = closeSession s ∧
    (closeSession s).fs.cap = false ∧
    (closeSession s).fs.cache = [] ∧
    ∀ idx : ℤ, getFrame (closeSession s).fs idx = .error .attributeError :=
  ⟨rfl, rfl, rfl, fun _ => rfl⟩

/-- C9 counterexample: `get_frame(0)` on a just-closed demo session hits
`self.cap.read()` with `self.cap = None` and raises `AttributeError` — an
escaping exception, not a `SessionClosed` error result (no such error kind
exists anywhere in the code), refuting the claim that operations after
`close()` fail with `SessionClosed` rather than crashing. -/
theorem close_no_sessionClosed_cex :
    getFrame (closeSession (initLV 9000 30 18)).fs 0 = .error .attributeError := rfl

/-- Modelled from the spec's words (§4.3), for refinement comparison with
the code: `min_frame = start + ceil(min_lap_duration_seconds * fps)`. -/
def specMinFrame (start : ℤ) (min_lap fps : ℚ) : ℤ := start + ⌈min_lap * fps⌉

/-- Modelled from the spec's words (§4.3), for refinement comparison:
`max_frame = min(min_frame + search_window_seconds * fps,
total_frame_count - 1)`, read as exact arithmetic on the stated
quantities. -/
def specMaxFrame (min_frame : ℤ) (window fps : ℚ) (total : ℤ) : ℚ :=
  min ((min_frame : ℚ) + window * fps) ((total : ℚ) - 1)

/-- Modelled from the spec's words (§4.3), for refinement comparison: the
candidate sampling step `round(0.1 * fps)` (round to nearest; Python's
`round` only differs on exact halves, which no comparison below uses). -/
def specSampleInterval (fps : ℚ) : ℤ := round ((1 : ℚ) / 10 * fps)

/-- A session on a 29.9 fps, 100000-frame video (18 s minimum lap) with the
reference at frame 0 — fractional `min_lap_time * fps`, separating `int()`
truncation from the spec's `ceil`. -/
def searchState3 : LVState :=
  { fs := { cap := true, pos := 1, last := 0, cache := [(0, 0)], total := 100000 },
    fps := 299 / 10, min_lap_time := 18, ref_frame_idx := some 0,
    ref_feature := some 0, lap_times := [], lap_frame_indices := [] }

/-- C3 as amended: the search route computes `start` as the last confirmed
lap frame (else the reference), `min_frame = start + int(min_lap_time *
fps)` with Python `int()` truncation — not `ceil` — and, when the window is
non-degenerate, `max_frame = min(min_frame + int(search_window_seconds *
fps), total_frame_count - 1)`, again with truncation (a degenerate window
is clamped to `total_frame_count - 1`). -/
theorem searchWindow_formula (s : LVState) (w : ℚ) (ref : ℤ)
    (href : s.ref_frame_idx = some ref) :
    ∀ (mn mx : ℤ) (samp : List ℤ),
      searchCandidates s w = .ok (mn, mx, samp) →
      mn = s.lap_frame_indices.getLast?.getD ref + pyInt (s.min_lap_time * s.fps) ∧
      mx = (if min (mn + pyInt (w * s.fps)) (s.fs.total - 1) ≤ mn
            then s.fs.total - 1
            else min (mn + pyInt (w * s.fps)) (s.fs.total - 1)) := by
  intro mn mx samp h
  unfold searchCandidates at h
  rw [href] at h
  dsimp only at h
  split at h
  · simp at h
  next hC1 =>
    split at h
    next hcl =>
      split at h
      · simp at h
      · split at h
        · simp at h
        · split at h
          · simp at h
          · simp only [Except.ok.injEq, Prod.mk.injEq] at h
            obtain ⟨h1, h2, -⟩ := h
            subst h1
            subst h2
            exact ⟨rfl, (if_pos hcl).symm⟩
    next hcl =>
      split at h
      · simp at h
      · split at h
        · simp at h
        · simp only [Except.ok.injEq, Prod.mk.injEq] at h
          obtain ⟨h1, h2, -⟩ := h
          subst h1
          subst h2
          exact ⟨rfl, (if_neg hcl).symm⟩

/-- C3 counterexample: at 29.9 fps with an 18 s minimum lap and a 0.2 s
window, the code's window starts at frame 538 (`int(538.2)`) and ends at
543 (`538 + int(5.98)`), while the spec's formulas give
`ceil(538.2) = 539` and `538 + 5.98 = 543.98` — both disagree with the
code. -/
theorem searchWindow_not_ceil_cex :
    searchCandidates searchState3 (1 / 5) = .ok (538, 543, [538, 540, 542]) ∧
    specMinFrame 0 18 (299 / 10) = 539 ∧
    (538 : ℤ) ≠ specMinFrame 0 18 (299 / 10) ∧
    specMaxFrame 538 (1 / 5) (299 / 10) 100000 = 27199 / 50 ∧
    ((543 : ℤ) : ℚ) ≠ specMaxFrame 538 (1 / 5) (299 / 10) 100000 := by
  have hceil : (⌈(18 : ℚ) * (299 / 10)⌉ : ℤ) = 539 := by
    rw [Int.ceil_eq_iff]
    norm_num
  have hmax : specMaxFrame 538 (1 / 5) (299 / 10) 100000 = 27199 / 50 := by
    rw [specMaxFrame, min_eq_left (by norm_num)]
    norm_num
  refine ⟨?_, ?_, ?_, hmax, ?_⟩
  · norm_num [searchCandidates, searchState3, pyInt, pyRange, pyRangeAux]
    intro hcon
    simp at hcon
  · rw [specMinFrame, hceil]
    norm_num
  · rw [specMinFrame, hceil]
    norm_num
  · rw [hmax]
    norm_num

/-- C3 witness: the amended window formulas instantiated on
`searchState3` with a 0.2 s window. -/
theorem searchWindow_formula_witness :
    searchState3.ref_frame_idx = some 0 ∧
    searchCandidates searchState3 (1 / 5) = .ok (538, 543, [538, 540, 542]) ∧
    ((538 : ℤ) = searchState3.lap_frame_indices.getLast?.getD 0
        + pyInt (searchState3.min_lap_time * searchState3.fps) ∧
     (543 : ℤ) = (if min (538 + pyInt ((1 / 5) * searchState3.fps))
                       (searchState3.fs.total - 1) ≤ 538
                  then searchState3.fs.total - 1
                  else min (538 + pyInt ((1 / 5) * searchState3.fps))
                       (searchState3.fs.total - 1))) := by
  have h : searchCandidates searchState3 (1 / 5) = .ok (538, 543, [538, 540, 542]) := by
    norm_num [searchCandidates, searchState3, pyInt, pyRange, pyRangeAux]
    intro hcon
    simp at hcon
  exact ⟨rfl, h, searchWindow_formula searchState3 (1 / 5) 0 rfl 538 543 _ h⟩

/-- A session on a 28 fps, 10000-frame video (18 s minimum lap) with the
reference at frame 0 — `0.1 * fps = 2.8`, separating `int()` truncation
(2) from the spec's rounding (3). -/
def searchState5 : LVState :=
  { fs := { cap := true, pos := 1, last := 0, cache := [(0, 0)], total := 10000 },
    fps := 28, min_lap_time := 18, ref_frame_idx := some 0,
    ref_feature := some 0, lap_times := [], lap_frame_indices := [] }

/-- C5 as amended: the candidate set is `min_frame, min_frame + s, ...`
strictly below `max_frame` with step `s = int(0.1 * fps)` — truncation, not
`round`.  With `s ≥ 1` the earlier window guards make the sampling
nonempty, so the `EmptySearchRange` branch never fires; with `s = 0`
(fps < 10) Python's `range` raises a `ValueError` that surfaces as a
generic error result, and the call never succeeds. -/
theorem searchSampling_formula (s : LVState) (w : ℚ) :
    (∀ (mn mx : ℤ) (samp : List ℤ),
        searchCandidates s w = .ok (mn, mx, samp) →
        samp ≠ [] ∧
        (∀ i : ℕ, i < samp.length →
          samp[i]? = some (mn + pyInt (1 / 10 * s.fps) * i)) ∧
        (∀ x ∈ samp, mn ≤ x ∧ x < mx)) ∧
    (1 ≤ pyInt (1 / 10 * s.fps) →
        searchCandidates s w ≠ .error .emptySearchRange) ∧
    (pyInt (1 / 10 * s.fps) = 0 →
        ∀ r : ℤ × ℤ × List ℤ, searchCandidates s w ≠ .ok r) := by
  refine ⟨?_, ?_, ?_⟩
  · intro mn mx samp h
    unfold searchCandidates at h
    cases href : s.ref_frame_idx with
    | none =>
      rw [href] at h
      simp at h
    | some ref =>
      rw [href] at h
      dsimp only at h
      split at h
      · simp at h
      · split at h
        next hcl =>
          split at h
          · simp at h
          · split at h
            next hstep =>
              simp at h
            next hstep =>
              split at h
              next hemp => simp at h
              next hemp =>
                simp only [Except.ok.injEq, Prod.mk.injEq] at h
                obtain ⟨h1, h2, h3⟩ := h
                subst h1
                subst h2
                subst h3
                have hpos : 0 < pyInt (1 / 10 * s.fps) := by
                  rcases lt_trichotomy (pyInt (1 / 10 * s.fps)) 0 with hlt | hz | hgt
                  · exfalso
                    apply hemp
                    rw [pyRange, if_neg (by omega)]
                  · exact absurd hz hstep
                  · exact hgt
                refine ⟨hemp, ?_, ?_⟩
                · intro i hi
                  exact pyRange_get hpos hi
                · intro x hx
                  exact pyRange_mem hpos hx
        next hcl =>
          split at h
          next hstep =>
            simp at h
          next hstep =>
            split at h
            next hemp => simp at h
            next hemp =>
              simp only [Except.ok.injEq, Prod.mk.injEq] at h
              obtain ⟨h1, h2, h3⟩ := h
              subst h1
              subst h2
              subst h3
              have hpos : 0 < pyInt (1 / 10 * s.fps) := by
                rcases lt_trichotomy (pyInt (1 / 10 * s.fps)) 0 with hlt | hz | hgt
                · exfalso
                  apply hemp
                  rw [pyRange, if_neg (by omega)]
                · exact absurd hz hstep
                · exact hgt
              refine ⟨hemp, ?_, ?_⟩
              · intro i hi
                exact pyRange_get hpos hi
              · intro x hx
                exact pyRange_mem hpos hx
  · intro hstep hne
    unfold searchCandidates at hne
    cases href : s.ref_frame_idx with
    | none =>
      rw [href] at hne
      simp at hne
    | some ref =>
      rw [href] at hne
      dsimp only at hne
      split at hne
      · simp at hne
      next hC1 =>
        split at hne
        next hcl =>
          split at hne
          next hins => simp at hne
          next hins =>
            split at hne
            · simp at hne
            next hz =>
              split at hne
              next hemp =>
                exact absurd hemp (pyRange_ne_nil (by omega) (by omega))
              · simp at hne
        next hcl =>
          split at hne
          · simp at hne
          next hz =>
            split at hne
            next hemp =>
              exact absurd hemp (pyRange_ne_nil (by omega) (by omega))
            · simp at hne
  · intro hz r hne
    unfold searchCandidates at hne
    cases href : s.ref_frame_idx with
    | none =>
      rw [href] at hne
      simp at hne
    | some ref =>
      rw [href] at hne
      dsimp only at hne
      split at hne
      · simp at hne
      · split at hne
        next =>
          split at hne
          · simp at hne
          · simp at hne
        next =>
          simp at hne

/-- C5 counterexample: at 28 fps the spec's step `round(2.8) = 3`, but the
code samples every `int(2.8) = 2` frames: over the window `[504, 518)` it
produces `[504, 506, ..., 516]`, not the 3-frame progression. -/
theorem searchSampling_not_round_cex :
    searchCandidates searchState5 (1 / 2)
      = .ok (504, 518, [504, 506, 508, 510, 512, 514, 516]) ∧
    specSampleInterval 28 = 3 ∧
    pyInt (1 / 10 * 28) = 2 ∧
    ([504, 506, 508, 510, 512, 514, 516] : List ℤ)
      ≠ pyRange 504 518 (specSampleInterval 28) := by
  have hround : specSampleInterval 28 = 3 := by
    rw [specSampleInterval, round_eq]
    norm_num
  refine ⟨?_, hround, ?_, ?_⟩
  · norm_num [searchCandidates, searchState5, pyInt, pyRange, pyRangeAux]
    intro hcon
    simp at hcon
  · norm_num [pyInt]
  · rw [hround]
    decide

/-- C5 witness: the amended sampling formula instantiated on
`searchState5` with a 0.5 s window — nonempty candidates starting at
`min_frame` with the truncated step. -/
theorem searchSampling_formula_witness :
    searchCandidates searchState5 (1 / 2)
      = .ok (504, 518, [504, 506, 508, 510, 512, 514, 516]) ∧
    ([504, 506, 508, 510, 512, 514, 516] : List ℤ) ≠ [] ∧
    ([504, 506, 508, 510, 512, 514, 516] : List ℤ)[1]?
      = some (504 + pyInt (1 / 10 * searchState5.fps) * 1) ∧
    ((516 : ℤ) ∈ ([504, 506, 508, 510, 512, 514, 516] : List ℤ) →
      (504 : ℤ) ≤ 516 ∧ (516 : ℤ) < 518) := by
  have h : searchCandidates searchState5 (1 / 2)
      = .ok (504, 518, [504, 506, 508, 510, 512, 514, 516]) := by
    norm_num [searchCandidates, searchState5, pyInt, pyRange, pyRangeAux]
    intro hcon
    simp at hcon
  obtain ⟨h1, h2, h3⟩ := (searchSampling_formula searchState5 (1 / 2)).1 504 518 _ h
  exact ⟨h, h1, h2 1 (by norm_num), h3 516⟩

instance : IsTotal (ℤ × ℤ × ℚ) simGE := ⟨fun a b => le_total b.2.2 a.2.2⟩

instance : IsTrans (ℤ × ℤ × ℚ) simGE := ⟨fun _ _ _ h1 h2 => le_trans h2 h1⟩

/-- C6: a successful `find_top_k_similar_frames` returns a list sorted by
non-increasing similarity score, of length at most `min k (number of
candidate indices)`; ties between equal scores keep the candidates'
original order — for every score value, the returned entries with that
score form a sublist (in order) of the collected candidate list. -/
theorem findTopK_sorted (embed : ℤ → ℤ) (dot : ℤ → ℤ → ℚ) (s : LVState)
    (idxs : List ℤ) (k : ℕ) (out : List (ℤ × ℤ × ℚ)) (s' : LVState)
    (h : findTopK embed dot s idxs k = (.ok out, s')) :
    out.Pairwise simGE ∧
    out.length ≤ min k idxs.length ∧
    (∀ (rf : ℤ) (sims : List (ℤ × ℤ × ℚ)) (fs2 : FSState),
      s.ref_feature = some rf →
      collectSims (fun f => dot rf (embed f)) s.fs idxs = (.ok sims, fs2) →
      ∀ q : ℚ, (out.filter (fun x => x.2.2 == q)).Sublist
        (sims.filter (fun x => x.2.2 == q))) := by
  unfold findTopK at h
  cases href : s.ref_feature with
  | none =>
    rw [href] at h
    dsimp only at h
    rw [Prod.mk.injEq] at h
    exact absurd h.1 (by simp)
  | some rf =>
    rw [href] at h
    dsimp only at h
    cases hcs : collectSims (fun f => dot rf (embed f)) s.fs idxs with
    | mk r2 fs2 =>
      rw [hcs] at h
      cases r2 with
      | error e =>
        dsimp only at h
        rw [Prod.mk.injEq] at h
        exact absurd h.1 (by simp)
      | ok sims =>
        dsimp only at h
        rw [Prod.mk.injEq] at h
        obtain ⟨h1, -⟩ := h
        injection h1 with h1
        subst h1
        refine ⟨?_, ?_, ?_⟩
        · exact List.Pairwise.sublist (List.take_sublist k _)
            (List.sorted_insertionSort simGE sims)
        · rw [List.length_take, List.length_insertionSort]
          have := collectSims_length _ idxs s.fs sims fs2 hcs
          omega
        · intro rf' sims' fs2' hrf hcs' q
          injection hrf with hrf
          subst hrf
          rw [hcs] at hcs'
          rw [Prod.mk.injEq] at hcs'
          obtain ⟨hh, -⟩ := hcs'
          injection hh with hh
          subst hh
          have hfil : (sims.filter (fun x => x.2.2 == q)).Pairwise simGE := by
            apply List.pairwise_of_forall_mem_list
            intro a ha b hb
            have h1 : a.2.2 = q := by simpa using (List.mem_filter.mp ha).2
            have h2 : b.2.2 = q := by simpa using (List.mem_filter.mp hb).2
            unfold simGE
            rw [h1, h2]
          have hsub : (sims.filter (fun x => x.2.2 == q)).Sublist (sims.insertionSort simGE) :=
            List.sublist_insertionSort hfil (List.filter_sublist sims)
          have hAA : (sims.filter (fun x => x.2.2 == q)).filter (fun x => x.2.2 == q)
              = sims.filter (fun x => x.2.2 == q) :=
            List.filter_eq_self.mpr (fun a ha => (List.mem_filter.mp ha).2)
          have hsub2 := List.Sublist.filter (fun x => x.2.2 == q) hsub
          rw [hAA] at hsub2
          have hperm := (List.perm_insertionSort simGE sims).filter
            (fun x => x.2.2 == q)
          have heq : (sims.insertionSort simGE).filter (fun x => x.2.2 == q)
              = sims.filter (fun x => x.2.2 == q) :=
            (hsub2.eq_of_length hperm.length_eq.symm).symm
          have hfin := List.Sublist.filter (fun x => x.2.2 == q)
            (List.take_sublist k (sims.insertionSort simGE))
          rwa [heq] at hfin

/-- A fresh session (9000 frames at 30 fps) with a stored reference
feature id 1, used to exercise the ranking concretely. -/
def rankState : LVState :=
  { fs := { cap := true, pos := 0, last := -1, cache := [], total := 9000 },
    fps := 30, min_lap_time := 18, ref_frame_idx := some 1,
    ref_feature := some 1, lap_times := [], lap_frame_indices := [] }

/-- `rankState` after ranking candidates `[2, 3, 4]` (their frames decoded
and cached). -/
def rankRanked : LVState :=
  { rankState with fs := { cap := true, pos := 5, last := 4,
                           cache := [(2, 2), (3, 3), (4, 4)], total := 9000 } }

/-- C6 witness: ranking candidates `[2, 3, 4]` with the identity oracle and
the product dot (scores 2, 3, 4) returns them in descending score order, of
length `3 = min 5 3`. -/
theorem findTopK_sorted_witness :
    findTopK (fun n => n) (fun a b => ((a * b : ℤ) : ℚ)) rankState [2, 3, 4] 5
      = (.ok [(4, 4, 4), (3, 3, 3), (2, 2, 2)], rankRanked) ∧
    ([(4, 4, 4), (3, 3, 3), (2, 2, 2)] : List (ℤ × ℤ × ℚ)).Pairwise simGE ∧
    ([(4, 4, 4), (3, 3, 3), (2, 2, 2)] : List (ℤ × ℤ × ℚ)).length
      ≤ min 5 ([2, 3, 4] : List ℤ).length := by
  have h : findTopK (fun n => n) (fun a b => ((a * b : ℤ) : ℚ)) rankState [2, 3, 4] 5
      = (.ok [(4, 4, 4), (3, 3, 3), (2, 2, 2)], rankRanked) := by
    norm_num [findTopK, collectSims, getFrame, cacheGet, capRead, cachePut,
      seekRead, rankState, rankRanked, List.insertionSort, List.orderedInsert,
      simGE]
  have hc := findTopK_sorted (fun n => n) (fun a b => ((a * b : ℤ) : ℚ))
    rankState [2, 3, 4] 5 [(4, 4, 4), (3, 3, 3), (2, 2, 2)] rankRanked h
  exact ⟨h, hc.1, hc.2.1⟩
